import Mathlib

/-!
Verification of the repsmate exercise API (src/index.js) against its design
specification.  The HTTP handlers, pagination arithmetic, id lookup, random
sampling and recommendation filter are embedded from src/index.js; the fuzzy
matcher delegated to the external Fuse.js library is modelled from the
specification's own algorithm description (spec §4.2).
-/

/-- An exercise record as consumed by src/index.js: `id`, `name`,
`equipment` (nullable string, `none` = JSON null) and `primaryMuscles`
(ordered list of muscle names).  Other fields of the remote dataset are
opaque payload never inspected by the code and are omitted. -/
structure Exercise where
  id : String
  name : String
  equipment : Option String
  primaryMuscles : List String
deriving DecidableEq, Repr

/-- A JavaScript number restricted to the values reachable in this program:
`NaN` or an integer.  (All arithmetic in src/index.js is on integers or NaN;
fractional values never arise from the pagination arithmetic.) -/
inductive JSNum where
  | nan : JSNum
  | int (n : Int) : JSNum
deriving DecidableEq, Repr

/-- JavaScript subtraction of an integer constant: NaN propagates. -/
def JSNum.subConst (a : JSNum) (k : Int) : JSNum :=
  match a with
  | .nan => .nan
  | .int n => .int (n - k)

/-- JavaScript multiplication by an integer constant: NaN propagates. -/
def JSNum.mulConst (a : JSNum) (k : Int) : JSNum :=
  match a with
  | .nan => .nan
  | .int n => .int (n * k)

/-- JavaScript addition of an integer constant: NaN propagates. -/
def JSNum.addConst (a : JSNum) (k : Int) : JSNum :=
  match a with
  | .nan => .nan
  | .int n => .int (n + k)

/-- ECMAScript relative-index resolution used by `Array.prototype.slice`:
NaN becomes 0; a negative index counts from the end clamped at 0; a
non-negative index is clamped to the length. -/
def jsRelIndex (len : Nat) (v : JSNum) : Nat :=
  match v with
  | .nan => 0
  | .int n => if n < 0 then (len + n).toNat else min n.toNat len

/-- `Array.prototype.slice(start, end)` as called at src/index.js line 76:
elements from the resolved start index (inclusive) to the resolved end
index (exclusive). -/
def jsSlice {α : Type} (l : List α) (s e : JSNum) : List α :=
  let k := jsRelIndex l.length s
  let fin := jsRelIndex l.length e
  (l.drop k).take (fin - k)

/-- Whitespace trimming on character lists (the list-level counterpart of
JavaScript string trimming). -/
def jsTrim (cs : List Char) : List Char :=
  ((cs.dropWhile (fun c => c.isWhitespace)).reverse.dropWhile
    (fun c => c.isWhitespace)).reverse

/-- The decimal value of a list of digit characters. -/
def digitsVal (cs : List Char) : Nat :=
  cs.foldl (fun a c => a * 10 + (c.toNat - 48)) 0

/-- Whether a character list is a non-empty run of decimal digits. -/
def isDigits (cs : List Char) : Bool :=
  !cs.isEmpty && cs.all (fun c => c.isDigit)

/-- JavaScript `Number(s)` string-to-number coercion, on the integer-literal
fragment of its grammar (an optional sign followed by decimal digits; the
empty or all-whitespace string is 0; anything else is NaN).  This is the
coercion applied by `page - 1` at src/index.js line 74 when `page` is a
query-string value. -/
def strToNumber (s : String) : JSNum :=
  match jsTrim s.toList with
  | [] => .int 0
  | '-' :: rest => if isDigits rest then .int (-(digitsVal rest : Int)) else .nan
  | '+' :: rest => if isDigits rest then .int (digitsVal rest) else .nan
  | cs => if isDigits cs then .int (digitsVal cs) else .nan

/-- The longest leading run of decimal digits of a character list. -/
def leadingDigits (cs : List Char) : List Char :=
  cs.takeWhile (fun c => c.isDigit)

/-- JavaScript `parseInt(s)`: after trimming, an optional sign followed by
the longest digit run; NaN when no digits lead. -/
def parseIntStr (s : String) : JSNum :=
  match jsTrim s.toList with
  | '-' :: rest =>
    let d := leadingDigits rest
    if d.isEmpty then .nan else .int (-(digitsVal d : Int))
  | '+' :: rest =>
    let d := leadingDigits rest
    if d.isEmpty then .nan else .int (digitsVal d)
  | cs =>
    let d := leadingDigits cs
    if d.isEmpty then .nan else .int (digitsVal d)

/-- The value of `req.query.page || 1` at src/index.js line 63: the JS
number 1 when the query parameter is absent or the empty string (both
falsy), otherwise the raw string. -/
inductive JPage where
  | jnum (n : Int) : JPage
  | jstr (s : String) : JPage
deriving DecidableEq, Repr

/-- `req.query.page || 1`: absent or empty-string page defaults to the
number 1; any non-empty string is kept as a string (including "0"). -/
def pageOfQuery (q : Option String) : JPage :=
  match q with
  | none => .jnum 1
  | some s => if s = "" then .jnum 1 else .jstr s

/-- Numeric coercion of the page value as triggered by `page - 1`. -/
def JPage.toNumber : JPage → JSNum
  | .jnum n => .int n
  | .jstr s => strToNumber s

/-- `parseInt(page)` at src/index.js line 80 (a number argument is first
converted to its decimal string, which round-trips for integers). -/
def JPage.parseIntJS : JPage → JSNum
  | .jnum n => .int n
  | .jstr s => parseIntStr s

/-- First index (counting from `i` for the head of `cs`) at which character
`c` occurs in `cs`, or `none`. -/
def firstIndexFrom (c : Char) : List Char → Nat → Option Nat
  | [], _ => none
  | x :: xs, i => if x = c then some i else firstIndexFrom c xs (i + 1)

/-- Modelled from the spec: the greedy left-to-right embedding step of the
Fuzzy Matcher (spec §4.2).  The repository delegates matching to the
external Fuse.js library (src/index.js lines 69-73), whose internals are
not part of these sources; the specification re-states the algorithm as an
ordered-subsequence scoring, which is what is embedded here.  Given the
remaining query characters, the remaining name characters (whose head sits
at absolute position `pos`), and the absolute position `last` of the last
character matched so far, returns the absolute position of the final
matched character, or `none` when some query character cannot be placed. -/
def greedyLast : List Char → List Char → Nat → Nat → Option Nat
  | [], _, _, last => some last
  | c :: rest, cs, pos, _ =>
    match firstIndexFrom c cs pos with
    | none => none
    | some i => greedyLast rest (cs.drop (i + 1 - pos)) (i + 1) i

/-- Modelled from the spec: the full greedy embedding of a non-empty query
into a name (spec §4.2) — every query character must appear in order, gaps
allowed.  Returns the absolute positions of the first and last matched
characters. -/
def greedyEmbed (q name : List Char) : Option (Nat × Nat) :=
  match q with
  | [] => none
  | c :: rest =>
    match firstIndexFrom c name 0 with
    | none => none
    | some i =>
      match greedyLast rest (name.drop (i + 1)) (i + 1) i with
      | none => none
      | some last => some (i, last)

/-- Modelled from the spec: the relevance score of spec §4.2 — `none` when
the case-folded query is not an in-order subsequence of the case-folded
name; otherwise the distance of the match from the start of the string
plus the total gap length (lower = better, 0 = contiguous prefix match). -/
def matchScore (q name : String) : Option Nat :=
  let qc := q.toList.map Char.toLower
  let nc := name.toList.map Char.toLower
  match greedyEmbed qc nc with
  | none => none
  | some (first, last) => some (first + (last + 1 - first - qc.length))

/-- Modelled from the spec: the fixed score threshold of spec §4.2 beyond
which a record is excluded entirely (its exact value is unspecified). -/
def scoreThreshold : Nat := 1000

/-- Modelled from the spec: scoring of one position-tagged catalog record —
`none` when the record does not match or its score exceeds the threshold,
otherwise the record tagged with its score and original position
(spec §4.2 steps 1-2). -/
def scoreEntry (q : String) (p : Nat × Exercise) : Option (Nat × Nat × Exercise) :=
  match matchScore q p.2.name with
  | none => none
  | some sc => if sc ≤ scoreThreshold then some (sc, p.1, p.2) else none

/-- Modelled from the spec: the scored candidate list — each catalog record
paired with its original position and score, keeping only records that
match within the threshold (spec §4.2 steps 1-2). -/
def scored (q : String) (snapshot : List Exercise) : List (Nat × Nat × Exercise) :=
  snapshot.enum.filterMap (scoreEntry q)

/-- Comparison used to order match results: ascending score, ties broken by
original catalog position (spec §4.2 step 3). -/
def rankLe (a b : Nat × Nat × Exercise) : Bool :=
  Nat.blt a.1 b.1 || (a.1 == b.1 && Nat.ble a.2.1 b.2.1)

/-- Insertion of one scored candidate into a list sorted by `rankLe`. -/
def insertRanked (x : Nat × Nat × Exercise) :
    List (Nat × Nat × Exercise) → List (Nat × Nat × Exercise)
  | [] => [x]
  | y :: ys => if rankLe x y then x :: y :: ys else y :: insertRanked x ys

/-- Insertion sort by `rankLe` (spec §4.2 step 3: stable ascending order by
score; stability is forced here by the position tie-break, which makes the
sort key unique per candidate). -/
def sortRanked : List (Nat × Nat × Exercise) → List (Nat × Nat × Exercise)
  | [] => []
  | x :: xs => insertRanked x (sortRanked xs)

/-- Modelled from the spec: the Fuzzy Matcher with ranking information,
`search(snapshot, query)` of spec §4.2 — empty for an empty query,
otherwise the surviving candidates sorted by (score, catalog position). -/
def searchRanked (snapshot : List Exercise) (q : String) :
    List (Nat × Nat × Exercise) :=
  if q = "" then [] else sortRanked (scored q snapshot)

/-- Modelled from the spec: the matcher's ordered result sequence, as the
records themselves (the Fuse.js wrapper objects around each matched record
carry no information the endpoints inspect). -/
def search (snapshot : List Exercise) (q : String) : List Exercise :=
  (searchRanked snapshot q).map (fun t => t.2.2)

/-- The response envelope built at src/index.js lines 78-83.  The `page`
field is `parseInt(page)` and may be NaN (serialized as JSON null). -/
structure SearchResponse where
  results : Nat
  page : JSNum
  total_pages : Nat
  data : List Exercise
deriving DecidableEq, Repr

/-- The search handler body after a successful fetch (src/index.js lines
73-83): run the matcher, compute `start = (page - 1) * 10`,
`end = start + 10` with JS numeric coercions, slice, and shape the
envelope (`Math.ceil(n / 10)` is `(n + 9) / 10` on naturals). -/
def paginatedSearch (exercises : List Exercise) (name : String) (page : JPage) :
    SearchResponse :=
  let result := search exercises name
  let start := (page.toNumber.subConst 1).mulConst 10
  let stop := start.addConst 10
  { results := result.length
    page := page.parseIntJS
    total_pages := (result.length + 9) / 10
    data := jsSlice result start stop }

/-- Outcome of the `axios.get(url)` fetch performed inside every handler:
either the decoded exercise array or a failure (non-200 response, network
error or malformed JSON). -/
inductive Fetch where
  | ok (exercises : List Exercise) : Fetch
  | failure : Fetch

/-- An HTTP handler outcome: a 200 body, a 404, or a 500. -/
inductive HttpResult (α : Type) where
  | ok (body : α) : HttpResult α
  | notFound : HttpResult α
  | serverError : HttpResult α
deriving DecidableEq, Repr

/-- The status code of a handler outcome. -/
def HttpResult.status {α : Type} : HttpResult α → Nat
  | .ok _ => 200
  | .notFound => 404
  | .serverError => 500

/-- GET /exercise/:id (src/index.js lines 34-52): fetch, then `find` the
first record whose id strictly equals the path parameter; 404 when none,
500 when the fetch fails. -/
def exerciseEndpoint (f : Fetch) (id : String) : HttpResult Exercise :=
  match f with
  | .failure => .serverError
  | .ok exercises =>
    match exercises.find? (fun e => e.id == id) with
    | none => .notFound
    | some e => .ok e

/-- GET /search (src/index.js lines 61-87): fetch, then the paginated
search body; 500 when the fetch fails. -/
def searchEndpoint (f : Fetch) (name : String) (page : Option String) :
    HttpResult SearchResponse :=
  match f with
  | .failure => .serverError
  | .ok exercises => .ok (paginatedSearch exercises name (pageOfQuery page))

/-- The five random array indices built at src/index.js line 101:
`Math.floor(Math.random() * exercises.length)` for each of five draws,
the draws being values in [0, 1). -/
def randomIndices (exercises : List Exercise) (draws : Fin 5 → ℚ) : List Nat :=
  (List.finRange 5).map (fun i => (⌊draws i * (exercises.length : ℚ)⌋).toNat)

/-- GET /random (src/index.js lines 96-109): fetch, build five random
indices, and look each up in the array; an out-of-bounds lookup is JS
`undefined` (here `none`), serialized as JSON null. -/
def randomEndpoint (f : Fetch) (draws : Fin 5 → ℚ) :
    HttpResult (List (Option Exercise)) :=
  match f with
  | .failure => .serverError
  | .ok exercises =>
    .ok ((randomIndices exercises draws).map (fun i => exercises.get? i))

/-- The filtered recommendation list of src/index.js lines 126-133: records
whose `equipment` strictly equals the query value and whose first primary
muscle strictly equals the query value, truncated to the first five. -/
def recommendationsList (exercises : List Exercise)
    (equipment primaryMuscle : String) : List Exercise :=
  (exercises.filter (fun e =>
    e.equipment == some equipment && e.primaryMuscles.head? == some primaryMuscle)).take 5

/-- GET /recommendations (src/index.js lines 118-137): fetch, filter, take
five; 500 when the fetch fails. -/
def recommendationsEndpoint (f : Fetch) (equipment primaryMuscle : String) :
    HttpResult (List Exercise) :=
  match f with
  | .failure => .serverError
  | .ok exercises => .ok (recommendationsList exercises equipment primaryMuscle)

/-- One inbound request together with its route parameters. -/
inductive Request where
  | exercise (id : String) : Request
  | searchReq (name : String) (page : Option String) : Request
  | random (draws : Fin 5 → ℚ) : Request
  | recommendations (equipment primaryMuscle : String) : Request

/-- One outbound response, tagged by route. -/
inductive Response where
  | exercise (r : HttpResult Exercise) : Response
  | searchRes (r : HttpResult SearchResponse) : Response
  | random (r : HttpResult (List (Option Exercise))) : Response
  | recommendations (r : HttpResult (List Exercise)) : Response

/-- The status code of a response. -/
def Response.status : Response → Nat
  | .exercise r => r.status
  | .searchRes r => r.status
  | .random r => r.status
  | .recommendations r => r.status

/-- Dispatch of one request given the outcome of its own fetch.  The server
of src/index.js holds no state: each handler performs its own fetch and
consults nothing else. -/
def handle : Fetch × Request → Response
  | (f, .exercise id) => .exercise (exerciseEndpoint f id)
  | (f, .searchReq name page) => .searchRes (searchEndpoint f name page)
  | (f, .random draws) => .random (randomEndpoint f draws)
  | (f, .recommendations e m) => .recommendations (recommendationsEndpoint f e m)

/-- A whole request history: each request is answered independently from
its own fetch outcome (src/index.js keeps no snapshot between requests). -/
def runServer (reqs : List (Fetch × Request)) : List Response :=
  reqs.map handle

/-- A sample record used to instantiate proved properties on concrete
inputs (the spec §8 example record). -/
def samplePushup : Exercise :=
  { id := "Pushup", name := "Push Up", equipment := none, primaryMuscles := ["Chest"] }

/-- A second sample record with equipment and muscle data, used to
instantiate proved properties on concrete inputs. -/
def sampleSquat : Exercise :=
  { id := "Squat", name := "Barbell Squat", equipment := some "Barbell",
    primaryMuscles := ["Quadriceps"] }

/-- A successful character search yields an index at or after the start
label, and the found character followed by the tail beyond it is a
sublist of the searched list. -/
theorem firstIndexFrom_found (c : Char) :
    ∀ (cs : List Char) (i j : Nat), firstIndexFrom c cs i = some j →
      i ≤ j ∧ List.Sublist (c :: cs.drop (j + 1 - i)) cs := by
  intro cs
  induction cs with
  | nil => intro i j h; simp [firstIndexFrom] at h
  | cons x xs ih =>
    intro i j h
    by_cases hx : x = c
    · rw [firstIndexFrom, if_pos hx] at h
      cases h
      subst hx
      refine ⟨Nat.le_refl i, ?_⟩
      have : i + 1 - i = 1 := by omega
      rw [this]
      simp
    · rw [firstIndexFrom, if_neg hx] at h
      obtain ⟨hle, hsub⟩ := ih (i + 1) j h
      refine ⟨by omega, ?_⟩
      have hstep : j + 1 - i = (j + 1 - (i + 1)) + 1 := by omega
      rw [hstep, List.drop_succ_cons]
      exact hsub.cons x

/-- A successful greedy continuation embeds the remaining query characters
as a sublist of the remaining name characters. -/
theorem greedyLast_sublist :
    ∀ (q cs : List Char) (pos last last2 : Nat),
      greedyLast q cs pos last = some last2 → List.Sublist q cs := by
  intro q
  induction q with
  | nil => intro cs _ _ _ _; exact List.nil_sublist cs
  | cons c rest ih =>
    intro cs pos last last2 h
    rw [greedyLast] at h
    cases hf : firstIndexFrom c cs pos with
    | none => rw [hf] at h; exact absurd h (by simp)
    | some i =>
      rw [hf] at h
      obtain ⟨-, hsub⟩ := firstIndexFrom_found c cs pos i hf
      have hrest := ih (cs.drop (i + 1 - pos)) (i + 1) i last2 h
      exact (hrest.cons₂ c).trans hsub

/-- A successful greedy embedding means the query is an in-order
subsequence of the name. -/
theorem greedyEmbed_sublist (q name : List Char) (pr : Nat × Nat)
    (h : greedyEmbed q name = some pr) : List.Sublist q name := by
  cases q with
  | nil => simp [greedyEmbed] at h
  | cons c rest =>
    rw [greedyEmbed] at h
    cases hf : firstIndexFrom c name 0 with
    | none => rw [hf] at h; exact absurd h (by simp)
    | some i =>
      rw [hf] at h
      have h2 : (match greedyLast rest (name.drop (i + 1)) (i + 1) i with
          | none => none
          | some last => some (i, last)) = some pr := h
      cases hg : greedyLast rest (name.drop (i + 1)) (i + 1) i with
      | none => rw [hg] at h2; exact absurd h2 (by simp)
      | some last =>
        obtain ⟨-, hsub⟩ := firstIndexFrom_found c name 0 i hf
        have h2 := greedyLast_sublist rest (name.drop (i + 1)) (i + 1) i last hg
        have hz : i + 1 - 0 = i + 1 := by omega
        rw [hz] at hsub
        exact (h2.cons₂ c).trans hsub

/-- A finite score certifies the case-folded in-order-subsequence
condition of spec §4.2. -/
theorem matchScore_sublist (q name : String) (sc : Nat)
    (h : matchScore q name = some sc) :
    List.Sublist (q.toList.map Char.toLower) (name.toList.map Char.toLower) := by
  simp only [matchScore] at h
  cases hg : greedyEmbed (q.toList.map Char.toLower) (name.toList.map Char.toLower) with
  | none => rw [hg] at h; exact absurd h (by simp)
  | some pr => exact greedyEmbed_sublist _ _ pr hg

/-- Characterization of a kept scored entry: it carries the original
position and record of the candidate and its (threshold-bounded) score. -/
theorem scoreEntry_some (q : String) (p : Nat × Exercise) (b : Nat × Nat × Exercise)
    (h : scoreEntry q p = some b) :
    b.2.1 = p.1 ∧ b.2.2 = p.2 ∧ matchScore q p.2.name = some b.1 ∧ b.1 ≤ scoreThreshold := by
  rw [scoreEntry] at h
  cases hm : matchScore q p.2.name with
  | none => rw [hm] at h; exact absurd h (by simp)
  | some sc =>
    rw [hm] at h
    have h2 : (if sc ≤ scoreThreshold then some ((sc, p.1, p.2) : Nat × Nat × Exercise)
        else none) = some b := h
    by_cases hsc : sc ≤ scoreThreshold
    · rw [if_pos hsc] at h2
      cases h2
      refine ⟨rfl, rfl, ?_, ?_⟩
      · simp [hm]
      · simpa using hsc
    · rw [if_neg hsc] at h2
      exact absurd h2 (by simp)

/-- Membership in an insertion step. -/
theorem mem_insertRanked (x a : Nat × Nat × Exercise) :
    ∀ (l : List (Nat × Nat × Exercise)), x ∈ insertRanked a l ↔ x = a ∨ x ∈ l := by
  intro l
  induction l with
  | nil => simp [insertRanked]
  | cons y ys ih =>
    by_cases h : rankLe a y
    · simp [insertRanked, h]
    · simp only [insertRanked, if_neg h, List.mem_cons, ih]
      tauto

/-- An insertion step is a permutation of consing. -/
theorem insertRanked_perm (a : Nat × Nat × Exercise) :
    ∀ (l : List (Nat × Nat × Exercise)), List.Perm (insertRanked a l) (a :: l) := by
  intro l
  induction l with
  | nil => simp [insertRanked]
  | cons y ys ih =>
    by_cases h : rankLe a y
    · simp [insertRanked, h]
    · rw [insertRanked, if_neg h]
      exact (ih.cons y).trans (List.Perm.swap a y ys)

/-- The ranking sort permutes its input. -/
theorem sortRanked_perm :
    ∀ (l : List (Nat × Nat × Exercise)), List.Perm (sortRanked l) l := by
  intro l
  induction l with
  | nil => simp [sortRanked]
  | cons x xs ih =>
    rw [sortRanked]
    exact (insertRanked_perm x (sortRanked xs)).trans (ih.cons x)

/-- The ranking order is total. -/
theorem rankLe_total (a b : Nat × Nat × Exercise) :
    rankLe a b = true ∨ rankLe b a = true := by
  simp only [rankLe, Bool.or_eq_true, Bool.and_eq_true, Nat.blt_eq, Nat.ble_eq, beq_iff_eq]
  omega

/-- The ranking order is transitive. -/
theorem rankLe_trans (a b c : Nat × Nat × Exercise)
    (h1 : rankLe a b = true) (h2 : rankLe b c = true) : rankLe a c = true := by
  simp only [rankLe, Bool.or_eq_true, Bool.and_eq_true, Nat.blt_eq, Nat.ble_eq,
    beq_iff_eq] at h1 h2 ⊢
  omega

/-- Inserting below a pairwise-ordered list keeps it pairwise ordered. -/
theorem pairwise_insertRanked (a : Nat × Nat × Exercise) :
    ∀ (l : List (Nat × Nat × Exercise)),
      l.Pairwise (fun x y => rankLe x y = true) →
      (insertRanked a l).Pairwise (fun x y => rankLe x y = true) := by
  intro l
  induction l with
  | nil => intro _; simp [insertRanked]
  | cons y ys ih =>
    intro hl
    obtain ⟨hy, hys⟩ := List.pairwise_cons.mp hl
    by_cases h : rankLe a y
    · rw [insertRanked, if_pos h]
      refine List.pairwise_cons.mpr ⟨?_, hl⟩
      intro z hz
      rcases List.mem_cons.mp hz with rfl | hz
      · exact h
      · exact rankLe_trans a y z h (hy z hz)
    · rw [insertRanked, if_neg h]
      refine List.pairwise_cons.mpr ⟨?_, ih hys⟩
      intro z hz
      rcases (mem_insertRanked z a ys).mp hz with rfl | hz
      · rcases rankLe_total z y with h1 | h1
        · exact absurd h1 h
        · exact h1
      · exact hy z hz

/-- The ranking sort produces a pairwise-ordered list. -/
theorem sortRanked_pairwise :
    ∀ (l : List (Nat × Nat × Exercise)),
      (sortRanked l).Pairwise (fun x y => rankLe x y = true) := by
  intro l
  induction l with
  | nil => simp [sortRanked]
  | cons x xs ih => exact pairwise_insertRanked x (sortRanked xs) ih

/-- Position labels of an enumeration are bounded below by the start. -/
theorem enumFrom_fst_le {α : Type} :
    ∀ (n : Nat) (l : List α) (p : Nat × α), p ∈ l.enumFrom n → n ≤ p.1 := by
  intro n l
  induction l generalizing n with
  | nil => intro p hp; simp [List.enumFrom] at hp
  | cons x xs ih =>
    intro p hp
    rcases List.mem_cons.mp hp with rfl | hp
    · exact Nat.le_refl n
    · exact Nat.le_of_succ_le (ih (n + 1) p hp)

/-- Position labels of an enumeration are strictly increasing. -/
theorem enumFrom_fst_pairwise {α : Type} :
    ∀ (n : Nat) (l : List α), (l.enumFrom n).Pairwise (fun p q => p.1 < q.1) := by
  intro n l
  induction l generalizing n with
  | nil => simp [List.enumFrom]
  | cons x xs ih =>
    refine List.pairwise_cons.mpr ⟨?_, ih (n + 1)⟩
    intro q hq
    exact Nat.lt_of_lt_of_le (Nat.lt_succ_self n) (enumFrom_fst_le (n + 1) xs q hq)

/-- The positions recorded in the scored candidate list are strictly
increasing (each candidate keeps its original catalog position). -/
theorem scored_idx_pairwise (q : String) (s : List Exercise) :
    (scored q s).Pairwise (fun a b => a.2.1 < b.2.1) := by
  rw [scored]
  refine List.Pairwise.filterMap (R := fun p pr : Nat × Exercise => p.1 < pr.1)
    (scoreEntry q) ?_ (enumFrom_fst_pairwise 0 s)
  intro p pr hlt b hb bb hbb
  have h1 := scoreEntry_some q p b hb
  have h2 := scoreEntry_some q pr bb hbb
  rw [h1.1, h2.1]
  exact hlt

/-- Every entry of the ranked search output is strictly below the next by
score, ties broken by strictly increasing catalog position. -/
theorem searchRanked_pairwise_strict (snapshot : List Exercise) (q : String) :
    (searchRanked snapshot q).Pairwise
      (fun a b => a.1 < b.1 ∨ (a.1 = b.1 ∧ a.2.1 < b.2.1)) := by
  rw [searchRanked]
  by_cases hq : q = ""
  · simp [hq]
  · rw [if_neg hq]
    have hrank := sortRanked_pairwise (scored q snapshot)
    have hidx : (scored q snapshot).Pairwise (fun a b => a.2.1 ≠ b.2.1) :=
      (scored_idx_pairwise q snapshot).imp (fun h => Nat.ne_of_lt h)
    have hnd : ((scored q snapshot).map (fun t => t.2.1)).Nodup :=
      List.pairwise_map.mpr hidx
    have hperm : List.Perm ((sortRanked (scored q snapshot)).map (fun t => t.2.1))
        ((scored q snapshot).map (fun t => t.2.1)) :=
      (sortRanked_perm (scored q snapshot)).map (fun t => t.2.1)
    have hnd2 : ((sortRanked (scored q snapshot)).map (fun t => t.2.1)).Nodup :=
      hperm.nodup_iff.mpr hnd
    have hne : (sortRanked (scored q snapshot)).Pairwise (fun a b => a.2.1 ≠ b.2.1) :=
      List.pairwise_map.mp hnd2
    refine (hrank.and hne).imp ?_
    intro a b hab
    obtain ⟨h1, h2⟩ := hab
    simp only [rankLe, Bool.or_eq_true, Bool.and_eq_true, Nat.blt_eq, Nat.ble_eq,
      beq_iff_eq] at h1
    omega

/-- Every record in the search output carries a finite, threshold-bounded
match score against the query. -/
theorem search_mem_matchScore (snapshot : List Exercise) (q : String) (e : Exercise)
    (he : e ∈ search snapshot q) :
    ∃ sc, matchScore q e.name = some sc ∧ sc ≤ scoreThreshold := by
  rw [search] at he
  obtain ⟨t, ht, hte⟩ := List.mem_map.mp he
  rw [searchRanked] at ht
  by_cases hq : q = ""
  · rw [if_pos hq] at ht
    simp at ht
  · rw [if_neg hq] at ht
    have ht2 : t ∈ scored q snapshot := (sortRanked_perm _).mem_iff.mp ht
    rw [scored] at ht2
    obtain ⟨p, hp, hpe⟩ := List.mem_filterMap.mp ht2
    obtain ⟨hidx, hrec, hsc, hthr⟩ := scoreEntry_some q p t hpe
    have hname : e.name = p.2.name := by rw [← hte, hrec]
    rw [hname]
    exact ⟨t.1, hsc, hthr⟩

/-- Resolving a ten-element window of non-negative slice indices agrees
with drop-then-take. -/
theorem drop_take_window {α : Type} (l : List α) (n : Nat) :
    ((l.drop (min n l.length)).take (min (n + 10) l.length - min n l.length)) =
      (l.drop n).take 10 := by
  by_cases h : n + 10 ≤ l.length
  · have h1 : min n l.length = n := by omega
    have h2 : min (n + 10) l.length = n + 10 := by omega
    rw [h1, h2]
    congr 1
    omega
  · by_cases h3 : n ≤ l.length
    · have h1 : min n l.length = n := by omega
      have h2 : min (n + 10) l.length = l.length := by omega
      rw [h1, h2]
      have hlen : (l.drop n).length = l.length - n := List.length_drop n l
      rw [List.take_of_length_le (by omega), List.take_of_length_le (by omega)]
    · have h1 : min n l.length = l.length := by omega
      have h2 : min (n + 10) l.length = l.length := by omega
      rw [h1, h2, List.drop_length, List.drop_eq_nil_of_le (by omega)]
      simp

/-- A slice whose start is a non-negative integer and whose end is start
plus ten is the usual drop-then-take window. -/
theorem jsSlice_int_window {α : Type} (l : List α) (s : Int) (hs : 0 ≤ s) :
    jsSlice l (.int s) (.int (s + 10)) = (l.drop s.toNat).take 10 := by
  rw [jsSlice]
  simp only [jsRelIndex]
  rw [if_neg (by omega), if_neg (by omega)]
  have h10 : (s + 10).toNat = s.toNat + 10 := by omega
  rw [h10]
  exact drop_take_window l s.toNat

/-- Concatenating all ten-element chunks of a list reconstructs it (stated
with an explicit length bound to drive the induction). -/
theorem chunks_join_aux {α : Type} :
    ∀ (N : Nat) (l : List α), l.length ≤ N →
      ((List.range ((l.length + 9) / 10)).map (fun i => (l.drop (i * 10)).take 10)).flatten
        = l := by
  intro N
  induction N with
  | zero =>
    intro l hl
    have hnil : l = [] := List.eq_nil_of_length_eq_zero (by omega)
    subst hnil
    simp
  | succ N ih =>
    intro l hl
    by_cases hnil : l.length = 0
    · have hn : l = [] := List.eq_nil_of_length_eq_zero hnil
      subst hn
      simp
    · have hpages : (l.length + 9) / 10 = ((l.drop 10).length + 9) / 10 + 1 := by
        rw [List.length_drop]
        omega
      rw [hpages, List.range_succ_eq_map, List.map_cons, List.flatten_cons]
      have hmap : (List.map (fun i => (l.drop (i * 10)).take 10)
            ((List.range (((l.drop 10).length + 9) / 10)).map Nat.succ))
          = (List.range (((l.drop 10).length + 9) / 10)).map
              (fun i => ((l.drop 10).drop (i * 10)).take 10) := by
        rw [List.map_map]
        refine List.map_congr_left ?_
        intro i hi
        simp only [Function.comp]
        rw [List.drop_drop]
        congr 2
        omega
      rw [hmap, ih (l.drop 10) (by rw [List.length_drop]; omega)]
      simp only [Nat.zero_mul, List.drop_zero]
      exact List.take_append_drop 10 l

/-- In a snapshot with unique ids, searching for a member's id finds
exactly that member. -/
theorem find_id_of_nodup :
    ∀ (snapshot : List Exercise), (snapshot.map Exercise.id).Nodup →
      ∀ e : Exercise, e ∈ snapshot →
        snapshot.find? (fun x => x.id == e.id) = some e := by
  intro snapshot
  induction snapshot with
  | nil => intro _ e he; simp at he
  | cons x xs ih =>
    intro hnodup e he
    have hnd : (∀ y ∈ xs, ¬ y.id = x.id) ∧ (xs.map Exercise.id).Nodup := by
      simpa using hnodup
    by_cases hx : x.id = e.id
    · have hxe : x = e := by
        rcases List.mem_cons.mp he with h | hmem
        · exact h.symm
        · exact absurd hx.symm (hnd.1 e hmem)
      rw [List.find?_cons_of_pos _ (by simp [hx])]
      rw [hxe]
    · rw [List.find?_cons_of_neg _ (by simp [hx])]
      have hmem : e ∈ xs := by
        rcases List.mem_cons.mp he with h | hmem
        · exact absurd (congrArg Exercise.id h).symm hx
        · exact hmem
      exact ih hnd.2 e hmem

/-- The record component of an enumeration entry belongs to the list. -/
theorem snd_mem_of_enumFrom {α : Type} (n : Nat) (l : List α) (p : Nat × α)
    (hp : p ∈ l.enumFrom n) : p.2 ∈ l := by
  have h2 := List.mem_map_of_mem Prod.snd hp
  rwa [List.enumFrom_map_snd] at h2

/-- The results field counts all matches. -/
theorem paginatedSearch_results (exercises : List Exercise) (name : String)
    (page : JPage) :
    (paginatedSearch exercises name page).results = (search exercises name).length := rfl

/-- The total_pages field is the rounded-up page count. -/
theorem paginatedSearch_total_pages (exercises : List Exercise) (name : String)
    (page : JPage) :
    (paginatedSearch exercises name page).total_pages
      = ((search exercises name).length + 9) / 10 := rfl

/-- The page field echoes parseInt of the page value. -/
theorem paginatedSearch_page (exercises : List Exercise) (name : String)
    (page : JPage) :
    (paginatedSearch exercises name page).page = page.parseIntJS := rfl

/-- The data field is the JS slice of the match sequence at the computed
window. -/
theorem paginatedSearch_data (exercises : List Exercise) (name : String)
    (page : JPage) :
    (paginatedSearch exercises name page).data
      = jsSlice (search exercises name) ((page.toNumber.subConst 1).mulConst 10)
          (((page.toNumber.subConst 1).mulConst 10).addConst 10) := rfl

/-- For the numeric page i+1 the data window is chunk i of the match
sequence. -/
theorem paginatedSearch_data_int (exercises : List Exercise) (name : String)
    (p : Nat) :
    (paginatedSearch exercises name (JPage.jnum ((p : Int) + 1))).data
      = ((search exercises name).drop (p * 10)).take 10 := by
  rw [paginatedSearch_data]
  simp only [JPage.toNumber, JSNum.subConst, JSNum.mulConst, JSNum.addConst]
  have h1 : ((p : Int) + 1 - 1) * 10 = (p : Int) * 10 := by ring
  rw [h1]
  rw [jsSlice_int_window (search exercises name) ((p : Int) * 10) (by omega)]
  have h3 : ((p : Int) * 10).toNat = p * 10 := by omega
  rw [h3]

/-- For any positive numeric page p the data window starts at (p-1)*10. -/
theorem paginatedSearch_data_pos (exercises : List Exercise) (name : String)
    (p : Int) (hp : 1 ≤ p) :
    (paginatedSearch exercises name (JPage.jnum p)).data
      = ((search exercises name).drop ((p - 1).toNat * 10)).take 10 := by
  rw [paginatedSearch_data]
  simp only [JPage.toNumber, JSNum.subConst, JSNum.mulConst, JSNum.addConst]
  rw [jsSlice_int_window (search exercises name) ((p - 1) * 10) (by omega)]
  have h3 : ((p - 1) * 10).toNat = (p - 1).toNat * 10 := by omega
  rw [h3]

/-- Claim C1 counterexample: a request history whose first fetch succeeds
(served 200 from the fetched snapshot) followed by a request whose fetch
fails is answered 500, not a 200-class response from the prior data — the
server of src/index.js retains no prior snapshot. -/
theorem C1_counterexample :
    (runServer [(Fetch.ok [samplePushup], Request.exercise "Pushup"),
        (Fetch.failure, Request.exercise "Pushup")]).map Response.status
      = [200, 500] := by
  decide

/-- Claim C1 (amended): every endpoint performs its own fetch per request
and any fetch failure is answered 500 regardless of the request history;
no snapshot is retained between requests, so the stale-snapshot fallback
does not exist. -/
theorem C1_no_snapshot_fallback (r : Request) (hist : List (Fetch × Request)) :
    (handle (Fetch.failure, r)).status = 500
    ∧ runServer (hist ++ [(Fetch.failure, r)])
        = runServer hist ++ [handle (Fetch.failure, r)] := by
  constructor
  · cases r <;> rfl
  · rw [runServer, runServer, List.map_append]
    rfl

/-- Claim C2 counterexample: the page value "0" is truthy, so it is not
defaulted to 1 — against one matching record, page "0" returns empty data
and echoes page 0 while page 1 returns the match. -/
theorem C2_counterexample :
    paginatedSearch [samplePushup] "push" (pageOfQuery (some "0"))
      ≠ paginatedSearch [samplePushup] "push" (pageOfQuery none) := by
  decide

/-- Claim C2 (amended): only an absent or empty page parameter defaults to
page 1; zero, negative, or non-numeric page strings are kept and produce a
different window than page 1.  Malformed pagination still never fails: the
endpoint answers 200 and the results and total_pages metadata stay
correct for every page value. -/
theorem C2_malformed_page_recovered (exercises : List Exercise) (name : String)
    (page : Option String) :
    (searchEndpoint (Fetch.ok exercises) name page).status = 200
    ∧ (paginatedSearch exercises name (pageOfQuery page)).results
        = (search exercises name).length
    ∧ (paginatedSearch exercises name (pageOfQuery page)).total_pages
        = ((search exercises name).length + 9) / 10
    ∧ pageOfQuery none = JPage.jnum 1
    ∧ pageOfQuery (some "") = JPage.jnum 1 :=
  ⟨rfl, rfl, rfl, rfl, rfl⟩

/-- Claim C3: for a non-empty query, every record returned by the fuzzy
search contains every character of the query, case-insensitively, in
order with gaps allowed (an in-order subsequence of its name). -/
theorem C3_match_is_subsequence (snapshot : List Exercise) (q : String)
    (_hq : q ≠ "") (e : Exercise) (he : e ∈ search snapshot q) :
    List.Sublist (q.toList.map Char.toLower) (e.name.toList.map Char.toLower) := by
  obtain ⟨sc, hsc, -⟩ := search_mem_matchScore snapshot q e he
  exact matchScore_sublist q e.name sc hsc

/-- Witness for C3 at a concrete snapshot and query. -/
theorem C3_match_is_subsequence_witness :
    ("push" ≠ "")
    ∧ samplePushup ∈ search [samplePushup] "push"
    ∧ List.Sublist ("push".toList.map Char.toLower)
        (samplePushup.name.toList.map Char.toLower) :=
  ⟨by decide, by decide,
    C3_match_is_subsequence [samplePushup] "push" (by decide) samplePushup (by decide)⟩

/-- Claim C4: concatenating the data arrays of pages 1 through total_pages
reconstructs exactly the matcher's full ordered result sequence. -/
theorem C4_pages_reconstruct (snapshot : List Exercise) (q : String) :
    ((List.range ((paginatedSearch snapshot q (JPage.jnum 1)).total_pages)).map
        (fun (i : Nat) => (paginatedSearch snapshot q (JPage.jnum ((i : Int) + 1))).data)).flatten
      = search snapshot q := by
  rw [paginatedSearch_total_pages]
  have hmap : (List.range (((search snapshot q).length + 9) / 10)).map
        (fun (i : Nat) => (paginatedSearch snapshot q (JPage.jnum ((i : Int) + 1))).data)
      = (List.range (((search snapshot q).length + 9) / 10)).map
        (fun (i : Nat) => ((search snapshot q).drop (i * 10)).take 10) := by
    refine List.map_congr_left ?_
    intro i _
    exact paginatedSearch_data_int snapshot q i
  rw [hmap]
  exact chunks_join_aux (search snapshot q).length (search snapshot q) (Nat.le_refl _)

/-- Claim C5: for a positive integer page p, the data is the window from
(p-1)*10 of length ten of the matcher output, results counts all matches,
total_pages is the ceiling of the match count over ten (least page count
covering all matches), and any page beyond total_pages yields empty data
with the same metadata rather than an error. -/
theorem C5_slice_and_overrun (snapshot : List Exercise) (q : String) (p : Nat)
    (hp : 1 ≤ p) :
    (paginatedSearch snapshot q (JPage.jnum (p : Int))).data
        = ((search snapshot q).drop ((p - 1) * 10)).take 10
    ∧ (paginatedSearch snapshot q (JPage.jnum (p : Int))).results
        = (search snapshot q).length
    ∧ (search snapshot q).length
        ≤ 10 * (paginatedSearch snapshot q (JPage.jnum (p : Int))).total_pages
    ∧ (∀ m : Nat, (search snapshot q).length ≤ 10 * m →
        (paginatedSearch snapshot q (JPage.jnum (p : Int))).total_pages ≤ m)
    ∧ ((paginatedSearch snapshot q (JPage.jnum (p : Int))).total_pages < p →
        (paginatedSearch snapshot q (JPage.jnum (p : Int))).data = []) := by
  have hdata := paginatedSearch_data_pos snapshot q (p : Int) (by omega)
  have hcast : ((p : Int) - 1).toNat = p - 1 := by omega
  rw [hcast] at hdata
  refine ⟨hdata, rfl, ?_, ?_, ?_⟩
  · rw [paginatedSearch_total_pages]
    omega
  · intro m hm
    rw [paginatedSearch_total_pages]
    omega
  · intro hover
    rw [paginatedSearch_total_pages] at hover
    rw [hdata, List.drop_eq_nil_of_le (by omega)]
    rfl

/-- Witness for C5 at a concrete snapshot, query, and overrunning page. -/
theorem C5_slice_and_overrun_witness :
    ((1 : Nat) ≤ 2)
    ∧ (paginatedSearch [samplePushup] "push" (JPage.jnum ((2 : Nat) : Int))).data
        = ((search [samplePushup] "push").drop ((2 - 1) * 10)).take 10
    ∧ (paginatedSearch [samplePushup] "push" (JPage.jnum ((2 : Nat) : Int))).data = [] :=
  ⟨by decide, (C5_slice_and_overrun [samplePushup] "push" 2 (by decide)).1,
    (C5_slice_and_overrun [samplePushup] "push" 2 (by decide)).2.2.2.2 (by decide)⟩

/-- Claim C6: lookup by id is total over the snapshot — when ids are
unique, every member is found exactly (200) and every absent id is
answered NotFound (404). -/
theorem C6_getById_total (snapshot : List Exercise)
    (hnodup : (snapshot.map Exercise.id).Nodup) (e : Exercise) (he : e ∈ snapshot)
    (i : String) (hi : ∀ x ∈ snapshot, x.id ≠ i) :
    exerciseEndpoint (Fetch.ok snapshot) e.id = HttpResult.ok e
    ∧ (exerciseEndpoint (Fetch.ok snapshot) e.id).status = 200
    ∧ exerciseEndpoint (Fetch.ok snapshot) i = HttpResult.notFound
    ∧ (exerciseEndpoint (Fetch.ok snapshot) i).status = 404 := by
  have hfind := find_id_of_nodup snapshot hnodup e he
  have h1 : exerciseEndpoint (Fetch.ok snapshot) e.id = HttpResult.ok e := by
    show (match snapshot.find? (fun x => x.id == e.id) with
      | none => HttpResult.notFound
      | some ex => HttpResult.ok ex) = HttpResult.ok e
    rw [hfind]
  have hnone : snapshot.find? (fun x => x.id == i) = none := by
    rw [List.find?_eq_none]
    intro x hx
    simpa using hi x hx
  have h2 : exerciseEndpoint (Fetch.ok snapshot) i = HttpResult.notFound := by
    show (match snapshot.find? (fun x => x.id == i) with
      | none => HttpResult.notFound
      | some ex => HttpResult.ok ex) = HttpResult.notFound
    rw [hnone]
  exact ⟨h1, by rw [h1]; rfl, h2, by rw [h2]; rfl⟩

/-- Witness for C6 at a concrete two-record snapshot. -/
theorem C6_getById_total_witness :
    exerciseEndpoint (Fetch.ok [samplePushup, sampleSquat]) "Squat"
        = HttpResult.ok sampleSquat
    ∧ exerciseEndpoint (Fetch.ok [samplePushup, sampleSquat]) "Absent"
        = HttpResult.notFound :=
  ⟨(C6_getById_total [samplePushup, sampleSquat] (by decide) sampleSquat (by decide)
      "Absent" (by decide)).1,
    (C6_getById_total [samplePushup, sampleSquat] (by decide) sampleSquat (by decide)
      "Absent" (by decide)).2.2.1⟩

/-- Claim C7: the fuzzy search is deterministic and snapshot-pure — two
runs on the same snapshot and query give the same output, the ranked
output is strictly ordered by score with ties broken by strictly
increasing original catalog position, and the result sequence is exactly
the record part of that ranked output. -/
theorem C7_deterministic_ranking (snapshot : List Exercise) (q : String) :
    search snapshot q = search snapshot q
    ∧ (searchRanked snapshot q).Pairwise
        (fun a b => a.1 < b.1 ∨ (a.1 = b.1 ∧ a.2.1 < b.2.1))
    ∧ search snapshot q = (searchRanked snapshot q).map (fun t => t.2.2) :=
  ⟨rfl, searchRanked_pairwise_strict snapshot q, rfl⟩

/-- Claim C8: the matcher never fails on degenerate input — the empty
query returns the empty sequence, a query matching no record returns the
empty sequence, and the search endpoint then reports zero results with
empty data. -/
theorem C8_degenerate_queries (snapshot : List Exercise) (q : String)
    (hq : ∀ e ∈ snapshot, matchScore q e.name = none) :
    search snapshot "" = []
    ∧ search snapshot q = []
    ∧ (paginatedSearch snapshot "" (pageOfQuery none)).results = 0
    ∧ (paginatedSearch snapshot q (pageOfQuery none)).results = 0
    ∧ (paginatedSearch snapshot q (pageOfQuery none)).data = [] := by
  have hscored : scored q snapshot = [] := by
    rw [scored, List.filterMap_eq_nil_iff]
    intro p hp
    have hmem : p.2 ∈ snapshot := by
      refine snd_mem_of_enumFrom 0 snapshot p ?_
      simpa [List.enum] using hp
    rw [scoreEntry, hq p.2 hmem]
  have hempty : search snapshot "" = [] := by
    rw [search, searchRanked, if_pos rfl]
    rfl
  have hsearch : search snapshot q = [] := by
    by_cases hqe : q = ""
    · rw [hqe]
      exact hempty
    · rw [search, searchRanked, if_neg hqe, hscored]
      rfl
  refine ⟨hempty, hsearch, ?_, ?_, ?_⟩
  · rw [paginatedSearch_results, hempty]
    rfl
  · rw [paginatedSearch_results, hsearch]
    rfl
  · rw [paginatedSearch_data, hsearch]
    rfl

/-- Witness for C8 at a concrete snapshot and non-matching query. -/
theorem C8_degenerate_queries_witness :
    search [samplePushup] "xyz123" = []
    ∧ (paginatedSearch [samplePushup] "xyz123" (pageOfQuery none)).results = 0 :=
  ⟨(C8_degenerate_queries [samplePushup] "xyz123" (by decide)).2.1,
    (C8_degenerate_queries [samplePushup] "xyz123" (by decide)).2.2.2.1⟩

/-- Claim C9: the recommendations operation returns at most five records,
each with equipment exactly equal to the requested equipment and first
primary muscle exactly equal to the requested muscle. -/
theorem C9_recommendations_filter (exercises : List Exercise) (e m : String)
    (r : Exercise) (hr : r ∈ recommendationsList exercises e m) :
    recommendationsEndpoint (Fetch.ok exercises) e m
        = HttpResult.ok (recommendationsList exercises e m)
    ∧ (recommendationsList exercises e m).length ≤ 5
    ∧ r.equipment = some e
    ∧ r.primaryMuscles.head? = some m := by
  refine ⟨rfl, ?_, ?_, ?_⟩
  · rw [recommendationsList, List.length_take]
    omega
  all_goals
    have hmem := List.mem_of_mem_take (by simpa [recommendationsList] using hr)
    have hpred := (List.mem_filter.mp hmem).2
    simp only [Bool.and_eq_true, beq_iff_eq] at hpred
  · exact hpred.1
  · exact hpred.2

/-- Witness for C9 at a concrete snapshot and matching filter values. -/
theorem C9_recommendations_filter_witness :
    sampleSquat ∈ recommendationsList [samplePushup, sampleSquat] "Barbell" "Quadriceps"
    ∧ sampleSquat.equipment = some "Barbell"
    ∧ sampleSquat.primaryMuscles.head? = some "Quadriceps" :=
  ⟨by decide,
    (C9_recommendations_filter [samplePushup, sampleSquat] "Barbell" "Quadriceps"
      sampleSquat (by decide)).2.2.1,
    (C9_recommendations_filter [samplePushup, sampleSquat] "Barbell" "Quadriceps"
      sampleSquat (by decide)).2.2.2⟩

/-- Claim C10: on an empty catalog the random endpoint neither fails nor
returns an empty array — all five indices are zero, each out-of-bounds
lookup is undefined (serialized null), and the response is a 200 with
exactly five null entries. -/
theorem C10_random_empty_catalog (draws : Fin 5 → ℚ) :
    randomIndices [] draws = List.replicate 5 0
    ∧ randomEndpoint (Fetch.ok []) draws
        = HttpResult.ok (List.replicate 5 (none : Option Exercise))
    ∧ (randomEndpoint (Fetch.ok []) draws).status = 200
    ∧ ((List.replicate 5 (none : Option Exercise)).length = 5) := by
  have hzero : ∀ i : Fin 5, (⌊draws i * (([] : List Exercise).length : ℚ)⌋).toNat = 0 := by
    intro i
    simp
  have hidx : randomIndices [] draws = List.replicate 5 0 := by
    rw [randomIndices, List.map_congr_left (fun i _ => hzero i)]
    simp
  have hend : randomEndpoint (Fetch.ok []) draws
      = HttpResult.ok (List.replicate 5 (none : Option Exercise)) := by
    show HttpResult.ok ((randomIndices [] draws).map
        (fun i => ([] : List Exercise).get? i))
      = HttpResult.ok (List.replicate 5 (none : Option Exercise))
    rw [hidx, List.map_replicate]
    rfl
  exact ⟨hidx, hend, by rw [hend]; rfl, rfl⟩
